import Mathlib

/-!
Verification of the Vigila.io storage retention and cleanup subsystem
(`apps/backend/services/storage_manager.py`), shallowly embedded in Lean.

Modelling conventions:
* a filesystem is a `List RecFile` (path, size in bytes, modification time
  in seconds since the epoch), listed in scan order;
* Python floats are modelled as exact rationals (`ℚ`);
* Python `int()` truncation toward zero is `ratTrunc`;
* Python `timedelta.days` is floor division of the elapsed seconds by 86400
  (`Int.fdiv`), which is negative for a negative delta;
* deleting a file removes it from the list; the claims under verification
  all assume every individual deletion succeeds, so the embedding does not
  model per-file deletion failure.
-/

namespace Vigila

/-- Constants from the top of `storage_manager.py`. -/
def MIN_FREE_PERCENT : ℚ := 5

def MIN_FREE_BYTES : ℕ := 1 * 1024 * 1024 * 1024

def WARNING_FREE_PERCENT : ℚ := 10

def MIN_RETENTION_DAYS : ℤ := 1

def ESTIMATED_GB_PER_CAMERA_PER_DAY : ℚ := 12

def SECONDS_PER_DAY : ℤ := 86400

/-- A recording file on disk: path, `st_size`, and `st_mtime` in seconds. -/
structure RecFile where
  path : String
  size : ℕ
  mtime : ℤ
  deriving Repr, DecidableEq

/-- Python `(now - mtime).days`: `timedelta.days` is the floor of the elapsed
seconds divided by 86400 (negative when `mtime` is in the future). -/
def ageDays (now mtime : ℤ) : ℤ :=
  (now - mtime).fdiv SECONDS_PER_DAY

/-- One entry of the inventory returned by `get_recording_files`:
`{"path": .., "size": .., "mtime": .., "age_days": ..}`. -/
structure RecInfo where
  path : String
  size : ℕ
  mtime : ℤ
  age_days : ℤ
  deriving Repr, DecidableEq

/-- `get_recording_files`: scan the tree and return every recording with its
size, mtime and derived age in whole days. -/
def get_recording_files (now : ℤ) (fs : List RecFile) : List RecInfo :=
  fs.map fun f => ⟨f.path, f.size, f.mtime, ageDays now f.mtime⟩

/-- The deletion test of `delete_old_recordings`:
`rec["age_days"] >= retention_days`. -/
def expired (now retention : ℤ) (f : RecFile) : Bool :=
  retention ≤ ageDays now f.mtime

/-- `delete_old_recordings`: delete every recording whose age is at least
`retention` days; return the remaining filesystem together with
`(files_deleted, bytes_freed)`. -/
def delete_old_recordings (now retention : ℤ) : List RecFile → List RecFile × ℕ × ℕ
  | [] => ([], 0, 0)
  | f :: fs =>
    let r := delete_old_recordings now retention fs
    if expired now retention f then (r.1, r.2.1 + 1, r.2.2 + f.size)
    else (f :: r.1, r.2.1, r.2.2)

theorem delete_old_fst (now retention : ℤ) (fs : List RecFile) :
    (delete_old_recordings now retention fs).1
      = fs.filter (fun f => !(expired now retention f)) := by
  induction fs with
  | nil => rfl
  | cons f fs ih =>
    simp only [delete_old_recordings, List.filter_cons]
    cases h : expired now retention f <;> simp [h, ih]

theorem delete_old_count (now retention : ℤ) (fs : List RecFile) :
    (delete_old_recordings now retention fs).2.1
      = (fs.filter (expired now retention)).length := by
  induction fs with
  | nil => rfl
  | cons f fs ih =>
    simp only [delete_old_recordings, List.filter_cons]
    cases h : expired now retention f <;> simp [h, ih]

theorem delete_old_bytes (now retention : ℤ) (fs : List RecFile) :
    (delete_old_recordings now retention fs).2.2
      = ((fs.filter (expired now retention)).map (·.size)).sum := by
  induction fs with
  | nil => rfl
  | cons f fs ih =>
    simp only [delete_old_recordings, List.filter_cons]
    cases h : expired now retention f <;> simp [h, ih, Nat.add_comm]

theorem delete_old_of_none_expired (now retention : ℤ) (fs : List RecFile)
    (h : ∀ f ∈ fs, expired now retention f = false) :
    delete_old_recordings now retention fs = (fs, 0, 0) := by
  induction fs with
  | nil => rfl
  | cons f fs ih =>
    have hf : expired now retention f = false := h f (by simp)
    simp only [delete_old_recordings, hf]
    rw [ih fun g hg => h g (by simp [hg])]
    simp

/-- C1: after `delete_old_recordings(base_path, retention_days)` runs with
every deletion succeeding, no remaining recording has
`age_days ≥ retention_days`; every recording with `age_days < retention_days`
is still present, untouched and in order (the remainder is exactly the
filter of the inventory); and the returned pair `(files_deleted, bytes_freed)`
is the count and the total size of exactly the deleted files. -/
theorem delete_old_recordings_correct (now retention : ℤ) (fs : List RecFile) :
    (∀ f ∈ (delete_old_recordings now retention fs).1,
        ageDays now f.mtime < retention) ∧
    (∀ f ∈ fs, ageDays now f.mtime < retention →
        f ∈ (delete_old_recordings now retention fs).1) ∧
    (delete_old_recordings now retention fs).1
      = fs.filter (fun f => !(expired now retention f)) ∧
    (delete_old_recordings now retention fs).2.1
      = (fs.filter (expired now retention)).length ∧
    (delete_old_recordings now retention fs).2.2
      = ((fs.filter (expired now retention)).map (·.size)).sum := by
  refine ⟨?_, ?_, delete_old_fst now retention fs,
    delete_old_count now retention fs, delete_old_bytes now retention fs⟩
  · intro f hf
    rw [delete_old_fst] at hf
    have := List.of_mem_filter hf
    simpa [expired] using this
  · intro f hf hage
    rw [delete_old_fst]
    refine List.mem_filter.2 ⟨hf, ?_⟩
    simpa [expired] using hage

/-- Scenario C of the spec: files aged 0, 1, 2 and 9 days, retention 7. -/
def fsScenC : List RecFile :=
  [⟨"recordings/t/l/c/a.mp4", 100, 864000⟩,
   ⟨"recordings/t/l/c/b.mp4", 200, 777600⟩,
   ⟨"recordings/t/l/c/d.mp4", 300, 691200⟩,
   ⟨"recordings/t/l/c/e.mp4", 400, 86400⟩]

theorem delete_old_recordings_correct_witness :
    (delete_old_recordings 864000 7 fsScenC).1
      = fsScenC.filter (fun f => !(expired 864000 7 f)) :=
  (delete_old_recordings_correct 864000 7 fsScenC).2.2.1

/-- C6: running age-based expiry twice in immediate succession (same clock,
no intervening writes, all deletions succeeding) deletes nothing the second
time: the second call leaves the filesystem unchanged and returns `(0, 0)`. -/
theorem delete_old_recordings_idempotent (now retention : ℤ) (fs : List RecFile) :
    delete_old_recordings now retention (delete_old_recordings now retention fs).1
      = ((delete_old_recordings now retention fs).1, 0, 0) := by
  rw [delete_old_fst]
  exact delete_old_of_none_expired now retention _ fun f hf => by
    simpa using List.of_mem_filter hf

/-- C9 counterexample: a file whose modification time lies one hour in the
future of the scan clock is returned with `age_days = -1`, refuting the claim
that `age_days` is non-negative for every possible modification time. -/
theorem get_recording_files_age_counterexample :
    (get_recording_files 0 [⟨"f.mp4", 5, 3600⟩]).map (·.age_days) = [-1] := rfl

/-- C9 amended: for every file returned by the inventory scanner, `age_days`
is the elapsed time from modification to scan truncated to whole days
(floor of elapsed seconds over 86400, not a calendar-date difference), and it
is non-negative exactly when the modification time is not in the future. -/
theorem get_recording_files_age_spec (now : ℤ) (fs : List RecFile) :
    ∀ r ∈ get_recording_files now fs,
      SECONDS_PER_DAY * r.age_days ≤ now - r.mtime ∧
      now - r.mtime < SECONDS_PER_DAY * (r.age_days + 1) ∧
      (0 ≤ r.age_days ↔ r.mtime ≤ now) := by
  intro r hr
  obtain ⟨f, _, rfl⟩ := List.mem_map.1 hr
  dsimp only [ageDays]
  have hd : (0 : ℤ) ≤ SECONDS_PER_DAY := by decide
  rw [Int.fdiv_eq_ediv _ hd]
  have h1 := Int.emod_add_ediv (now - f.mtime) SECONDS_PER_DAY
  have h2 := Int.emod_nonneg (now - f.mtime) (b := SECONDS_PER_DAY) (by decide)
  have h3 := Int.emod_lt_of_pos (now - f.mtime) (b := SECONDS_PER_DAY) (by decide)
  unfold SECONDS_PER_DAY at h1 h2 h3 ⊢
  omega

def recW : RecInfo := ⟨"a.mp4", 5, 0, 2⟩

theorem get_recording_files_age_spec_witness :
    SECONDS_PER_DAY * recW.age_days ≤ 180000 - recW.mtime ∧
    180000 - recW.mtime < SECONDS_PER_DAY * (recW.age_days + 1) ∧
    (0 ≤ recW.age_days ↔ recW.mtime ≤ 180000) :=
  get_recording_files_age_spec 180000 [⟨"a.mp4", 5, 0⟩] recW (by
    simp [get_recording_files, recW, ageDays, SECONDS_PER_DAY])

/-- Total size in bytes of a list of recordings. -/
def sizeSum (l : List RecFile) : ℕ := (l.map (·.size)).sum

/-- `recordings.sort(key=lambda x: x["mtime"])`: Python sorts are stable and
ascending; `List.insertionSort` with the non-strict comparison places each
element before the first later element it does not strictly follow, which is
the same stable ascending order. -/
def sortByMtime (fs : List RecFile) : List RecFile :=
  List.insertionSort (fun a b => a.mtime ≤ b.mtime) fs

instance : IsTotal RecFile (fun a b => a.mtime ≤ b.mtime) :=
  ⟨fun a b => Int.le_total a.mtime b.mtime⟩

instance : IsTrans RecFile (fun a b => a.mtime ≤ b.mtime) :=
  ⟨fun _ _ _ h h2 => le_trans h h2⟩

/-- The deletion loop of `delete_oldest_recordings_until_space`: walk the
sorted inventory, breaking out as soon as the accumulated freed bytes reach
the deficit, deleting otherwise. Returns (deleted files, surviving files). -/
def evictLoop (deficit : ℚ) : ℕ → List RecFile → List RecFile × List RecFile
  | _, [] => ([], [])
  | freed, f :: fs =>
    if deficit ≤ (freed : ℚ) then ([], f :: fs)
    else
      let r := evictLoop deficit (freed + f.size) fs
      (f :: r.1, r.2)

/-- `delete_oldest_recordings_until_space`: if the volume already has the
required free bytes do nothing; otherwise delete oldest-first until the
deficit is covered. Returns the remaining filesystem together with
`(files_deleted, bytes_freed)`. -/
def delete_oldest_recordings_until_space (required_free current_free : ℚ)
    (fs : List RecFile) : List RecFile × ℕ × ℕ :=
  if required_free ≤ current_free then (fs, 0, 0)
  else
    let r := evictLoop (required_free - current_free) 0 (sortByMtime fs)
    (r.2, r.1.length, sizeSum r.1)

theorem evictLoop_append (deficit : ℚ) (freed : ℕ) (l : List RecFile) :
    (evictLoop deficit freed l).1 ++ (evictLoop deficit freed l).2 = l := by
  induction l generalizing freed with
  | nil => rfl
  | cons f fs ih =>
    simp only [evictLoop]
    split
    · rfl
    · simpa using ih (freed + f.size)

theorem evictLoop_stop (deficit : ℚ) (freed : ℕ) (l : List RecFile) :
    deficit ≤ ((freed + sizeSum (evictLoop deficit freed l).1 : ℕ) : ℚ) ∨
      (evictLoop deficit freed l).1 = l := by
  induction l generalizing freed with
  | nil => right; rfl
  | cons f fs ih =>
    simp only [evictLoop]
    split
    · left
      simpa [sizeSum] using by assumption
    · rcases ih (freed + f.size) with h | h
      · left
        simpa [sizeSum, add_assoc] using h
      · right
        simp [h]

theorem evictLoop_minimal (deficit : ℚ) (freed : ℕ) (l : List RecFile)
    (pre : List RecFile) (lastF : RecFile)
    (h : (evictLoop deficit freed l).1 = pre ++ [lastF]) :
    ((freed + sizeSum pre : ℕ) : ℚ) < deficit := by
  induction l generalizing freed pre with
  | nil => simp [evictLoop] at h
  | cons f fs ih =>
    simp only [evictLoop] at h
    split at h
    · simp at h
    · rename_i hlt
      push_neg at hlt
      simp only at h
      cases pre with
      | nil =>
        simpa [sizeSum] using hlt
      | cons p pre =>
        rw [List.cons_append, List.cons.injEq] at h
        have := ih (freed + f.size) pre h.2
        rw [h.1] at this
        simpa [sizeSum, add_assoc] using this

/-- C2: with enough free space already, `delete_oldest_recordings_until_space`
deletes nothing and returns `(0, 0)`; otherwise (all deletions succeeding) it
deletes a prefix of the inventory sorted ascending by modification time
(stable, so ties keep scan order), returns exactly the count and total size of
the deleted files, stops as soon as the freed bytes reach the deficit (or the
inventory is exhausted), and never deletes more than necessary: dropping the
last-deleted file would leave the freed total strictly below the deficit. -/
theorem delete_oldest_until_space_spec (required current : ℚ) (fs : List RecFile) :
    (required ≤ current →
      delete_oldest_recordings_until_space required current fs = (fs, 0, 0)) ∧
    (current < required →
      List.Sorted (fun a b : RecFile => a.mtime ≤ b.mtime) (sortByMtime fs) ∧
      List.Perm (sortByMtime fs) fs ∧
      (evictLoop (required - current) 0 (sortByMtime fs)).1
          ++ (delete_oldest_recordings_until_space required current fs).1
        = sortByMtime fs ∧
      (delete_oldest_recordings_until_space required current fs).2.1
        = (evictLoop (required - current) 0 (sortByMtime fs)).1.length ∧
      (delete_oldest_recordings_until_space required current fs).2.2
        = sizeSum (evictLoop (required - current) 0 (sortByMtime fs)).1 ∧
      (required - current
          ≤ ((sizeSum (evictLoop (required - current) 0 (sortByMtime fs)).1 : ℕ) : ℚ) ∨
        (evictLoop (required - current) 0 (sortByMtime fs)).1 = sortByMtime fs) ∧
      (∀ pre lastF,
        (evictLoop (required - current) 0 (sortByMtime fs)).1 = pre ++ [lastF] →
          ((sizeSum pre : ℕ) : ℚ) < required - current)) := by
  constructor
  · intro h
    simp [delete_oldest_recordings_until_space, h]
  · intro h
    have hn : ¬ required ≤ current := not_le.2 h
    refine ⟨List.sorted_insertionSort _ fs, List.perm_insertionSort _ fs, ?_, ?_, ?_, ?_, ?_⟩
    · simp only [delete_oldest_recordings_until_space, hn, if_false]
      exact evictLoop_append _ 0 _
    · simp [delete_oldest_recordings_until_space, hn]
    · simp [delete_oldest_recordings_until_space, hn]
    · have := evictLoop_stop (required - current) 0 (sortByMtime fs)
      simpa using this
    · intro pre lastF hpre
      have := evictLoop_minimal (required - current) 0 (sortByMtime fs) pre lastF hpre
      simpa using this

def fsEvW : List RecFile := [⟨"old.mp4", 5, 100⟩, ⟨"new.mp4", 9, 200⟩]

theorem delete_oldest_until_space_spec_witness :
    (delete_oldest_recordings_until_space 10 3 fsEvW).2.2
      = sizeSum (evictLoop ((10 : ℚ) - 3) 0 (sortByMtime fsEvW)).1 :=
  ((delete_oldest_until_space_spec 10 3 fsEvW).2 (by norm_num)).2.2.2.2.1

/-- Python `int()` applied to a float: truncation toward zero. -/
def ratTrunc (q : ℚ) : ℤ := if 0 ≤ q then ⌊q⌋ else ⌈q⌉

/-- `calculate_max_retention_days`: maximum retention days sustainable in the
available space, defaulting to 365 when no cameras constrain it, otherwise
`int(available_gb / (camera_count * gb_per_camera_per_day))` clamped to
`[MIN_RETENTION_DAYS, 365]`. -/
def calculate_max_retention_days (available_bytes : ℚ) (camera_count : ℤ)
    (gb_per_camera_per_day : ℚ) : ℤ :=
  if camera_count ≤ 0 ∨ gb_per_camera_per_day ≤ 0 then 365
  else
    let gb_available := available_bytes / (1024 * 1024 * 1024)
    let max_days := ratTrunc (gb_available / (camera_count * gb_per_camera_per_day))
    max MIN_RETENTION_DAYS (min max_days 365)

theorem ratTrunc_mono {x y : ℚ} (h : x ≤ y) : ratTrunc x ≤ ratTrunc y := by
  unfold ratTrunc
  split
  · rw [if_pos (le_trans (by assumption) h)]
    exact Int.floor_le_floor h
  · split
    · exact le_trans (Int.ceil_le.2 (by exact_mod_cast le_of_not_le (by assumption)))
        (Int.floor_nonneg.2 (by assumption))
    · exact Int.ceil_le_ceil h

theorem calculate_max_retention_days_ge_one (a : ℚ) (c : ℤ) (r : ℚ) :
    1 ≤ calculate_max_retention_days a c r := by
  unfold calculate_max_retention_days
  split
  · norm_num
  · exact le_max_left _ _

theorem calculate_max_retention_days_le_365 (a : ℚ) (c : ℤ) (r : ℚ) :
    calculate_max_retention_days a c r ≤ 365 := by
  unfold calculate_max_retention_days
  split
  · norm_num
  · exact max_le (by norm_num [MIN_RETENTION_DAYS]) (min_le_right _ _)

/-- C4: `calculate_max_retention_days` returns 365 whenever the camera count
is zero or negative or the daily rate is non-positive, regardless of
available space; otherwise (for non-negative available bytes, where Python
`int()` truncation agrees with `floor`) it returns
`floor(available_gb / (camera_count * rate))` clamped to `[1, 365]`; and its
result always lies in `[1, 365]`. -/
theorem calculate_max_retention_days_spec (a : ℚ) (c : ℤ) (r : ℚ) :
    (c ≤ 0 ∨ r ≤ 0 → calculate_max_retention_days a c r = 365) ∧
    (0 < c → 0 < r → 0 ≤ a →
      calculate_max_retention_days a c r
        = max 1 (min ⌊a / (1024 * 1024 * 1024) / (c * r)⌋ 365)) ∧
    1 ≤ calculate_max_retention_days a c r ∧
    calculate_max_retention_days a c r ≤ 365 := by
  refine ⟨?_, ?_, calculate_max_retention_days_ge_one a c r,
    calculate_max_retention_days_le_365 a c r⟩
  · intro h
    simp [calculate_max_retention_days, h]
  · intro hc hr ha
    have hcr : (0 : ℚ) < c * r := by
      have : (0 : ℚ) < (c : ℚ) := by exact_mod_cast hc
      positivity
    have hq : (0 : ℚ) ≤ a / (1024 * 1024 * 1024) / (c * r) := by positivity
    have hcond : ¬(c ≤ 0 ∨ r ≤ 0) := by
      push_neg
      exact ⟨hc, hr⟩
    simp only [calculate_max_retention_days, hcond, if_false, ratTrunc, hq, if_pos,
      MIN_RETENTION_DAYS]

theorem calculate_max_retention_days_spec_witness :
    calculate_max_retention_days (95 * 2 ^ 30) 1 12
      = max 1 (min ⌊(95 * 2 ^ 30 : ℚ) / (1024 * 1024 * 1024) / ((1 : ℤ) * 12)⌋ 365) :=
  (calculate_max_retention_days_spec (95 * 2 ^ 30) 1 12).2.1 (by norm_num) (by norm_num)
    (by norm_num)

/-- C5: with the daily rate fixed at any positive value,
`calculate_max_retention_days` is monotonically non-decreasing in the
available bytes and non-increasing in the camera count (including a zero or
negative lower camera count, where the 365 default dominates). -/
theorem calculate_max_retention_days_monotone (r : ℚ) (hr : 0 < r) :
    (∀ a1 a2 : ℚ, ∀ c : ℤ, a1 ≤ a2 →
      calculate_max_retention_days a1 c r ≤ calculate_max_retention_days a2 c r) ∧
    (∀ a : ℚ, 0 ≤ a → ∀ c1 c2 : ℤ, c1 ≤ c2 →
      calculate_max_retention_days a c2 r ≤ calculate_max_retention_days a c1 r) := by
  constructor
  · intro a1 a2 c ha
    by_cases hc : c ≤ 0 ∨ r ≤ 0
    · simp [calculate_max_retention_days, hc]
    · push_neg at hc
      have hcq : (0 : ℚ) < (c : ℚ) := by exact_mod_cast hc.1
      have hcr : (0 : ℚ) < c * r := by positivity
      simp only [calculate_max_retention_days, not_or.2 ⟨not_le.2 hc.1, not_le.2 hc.2⟩,
        if_false]
      refine max_le_max le_rfl (min_le_min (ratTrunc_mono ?_) le_rfl)
      gcongr
  · intro a ha c1 c2 hc12
    by_cases hc1 : c1 ≤ 0
    · have h365 : calculate_max_retention_days a c1 r = 365 := by
        simp [calculate_max_retention_days, hc1]
      rw [h365]
      exact calculate_max_retention_days_le_365 a c2 r
    · push_neg at hc1
      have hc2 : 0 < c2 := lt_of_lt_of_le hc1 hc12
      have hc1q : (0 : ℚ) < (c1 : ℚ) := by exact_mod_cast hc1
      have hc2q : (0 : ℚ) < (c2 : ℚ) := by exact_mod_cast hc2
      have hcc : (c1 : ℚ) ≤ (c2 : ℚ) := by exact_mod_cast hc12
      simp only [calculate_max_retention_days,
        not_or.2 ⟨not_le.2 hc1, not_le.2 hr⟩,
        not_or.2 ⟨not_le.2 hc2, not_le.2 hr⟩, if_false]
      refine max_le_max le_rfl (min_le_min (ratTrunc_mono ?_) le_rfl)
      gcongr

theorem calculate_max_retention_days_monotone_witness :
    calculate_max_retention_days (200 * 2 ^ 30) 4 12
      ≤ calculate_max_retention_days (200 * 2 ^ 30) 0 12 :=
  (calculate_max_retention_days_monotone 12 (by norm_num)).2 (200 * 2 ^ 30) (by norm_num)
    0 4 (by norm_num)

/-- One row of `calculate_storage_by_age`:
`{age_days, size_bytes, file_count}`. -/
structure AgeBucket where
  age_days : ℤ
  size_bytes : ℕ
  file_count : ℕ
  deriving Repr, DecidableEq

/-- One step of the grouping loop of `get_recordings_by_age`: a Python dict
keyed by age, in key-insertion order, appending the record to its bucket. -/
def addToGroups (groups : List (ℤ × List RecInfo)) (r : RecInfo) :
    List (ℤ × List RecInfo) :=
  match groups with
  | [] => [(r.age_days, [r])]
  | g :: rest =>
    if g.1 = r.age_days then (g.1, g.2 ++ [r]) :: rest
    else g :: addToGroups rest r

/-- `get_recordings_by_age`: group the freshly scanned inventory by age. -/
def get_recordings_by_age (now : ℤ) (fs : List RecFile) :
    List (ℤ × List RecInfo) :=
  (get_recording_files now fs).foldl addToGroups []

instance : IsTotal (ℤ × List RecInfo) (fun a b => a.1 ≤ b.1) :=
  ⟨fun a b => Int.le_total a.1 b.1⟩

instance : IsTrans (ℤ × List RecInfo) (fun a b => a.1 ≤ b.1) :=
  ⟨fun _ _ _ h h2 => le_trans h h2⟩

/-- `calculate_storage_by_age`: per-age size and count, ages ascending
(`for age_days in sorted(by_age.keys())`). -/
def calculate_storage_by_age (now : ℤ) (fs : List RecFile) : List AgeBucket :=
  (List.insertionSort (fun a b : ℤ × List RecInfo => a.1 ≤ b.1)
      (get_recordings_by_age now fs)).map
    fun g => ⟨g.1, (g.2.map (·.size)).sum, g.2.length⟩

/-- Python `max(iterable, default=d)`. -/
def maxOrDefault (l : List ℤ) (d : ℤ) : ℤ :=
  l.maximum.unbot' d

/-- `total_recording_bytes = sum(s["size_bytes"] for s in storage_by_age)`. -/
def total_recording_bytes (now : ℤ) (fs : List RecFile) : ℕ :=
  ((calculate_storage_by_age now fs).map (·.size_bytes)).sum

/-- `oldest_recording_days = max((s["age_days"] for s in storage_by_age), default=0)`. -/
def oldest_recording_days (now : ℤ) (fs : List RecFile) : ℤ :=
  maxOrDefault ((calculate_storage_by_age now fs).map (·.age_days)) 0

/-- The daily-rate estimate of `analyze_storage_and_retention`: empirical
(total recorded bytes over oldest age over `max(camera_count, 1)`) when
recordings exist and the oldest is at least a day old, else the fixed
default `ESTIMATED_GB_PER_CAMERA_PER_DAY`. -/
def analysis_gb_per_camera_per_day (now : ℤ) (fs : List RecFile)
    (camera_count : ℕ) : ℚ :=
  if calculate_storage_by_age now fs ≠ [] ∧ 0 < oldest_recording_days now fs then
    ((total_recording_bytes now fs : ℚ) / 1024 ^ 3
        / (max (oldest_recording_days now fs) 1 : ℤ))
      / (max camera_count 1 : ℕ)
  else ESTIMATED_GB_PER_CAMERA_PER_DAY

theorem maximum_eq_of_mem_iff {l1 l2 : List ℤ} (h : ∀ a, a ∈ l1 ↔ a ∈ l2) :
    l1.maximum = l2.maximum := by
  refine le_antisymm ?_ ?_
  · exact List.maximum_le_of_forall_le fun a ha =>
      List.le_maximum_of_mem' ((h a).1 ha)
  · exact List.maximum_le_of_forall_le fun a ha =>
      List.le_maximum_of_mem' ((h a).2 ha)

theorem mem_keys_addToGroups (groups : List (ℤ × List RecInfo)) (r : RecInfo)
    (a : ℤ) :
    a ∈ (addToGroups groups r).map (·.1)
      ↔ a ∈ groups.map (·.1) ∨ a = r.age_days := by
  induction groups with
  | nil => simp [addToGroups]
  | cons g rest ih =>
    simp only [addToGroups]
    split
    · rename_i hk
      simp only [List.map_cons, List.mem_cons]
      constructor
      · rintro (rfl | h)
        · exact Or.inl (Or.inl rfl)
        · exact Or.inl (Or.inr h)
      · rintro ((rfl | h) | rfl)
        · exact Or.inl rfl
        · exact Or.inr h
        · exact Or.inl hk.symm
    · simp only [List.map_cons, List.mem_cons, ih]
      tauto

theorem mem_keys_foldl (l : List RecInfo) (init : List (ℤ × List RecInfo))
    (a : ℤ) :
    a ∈ (l.foldl addToGroups init).map (·.1)
      ↔ a ∈ init.map (·.1) ∨ a ∈ l.map (·.age_days) := by
  induction l generalizing init with
  | nil => simp
  | cons r l ih =>
    simp only [List.foldl_cons, ih, mem_keys_addToGroups, List.map_cons,
      List.mem_cons]
    tauto

/-- Total recorded bytes held in a grouping. -/
def groupBytes (groups : List (ℤ × List RecInfo)) : ℕ :=
  (groups.map fun g => (g.2.map (·.size)).sum).sum

theorem groupBytes_addToGroups (groups : List (ℤ × List RecInfo)) (r : RecInfo) :
    groupBytes (addToGroups groups r) = groupBytes groups + r.size := by
  induction groups with
  | nil => simp [addToGroups, groupBytes]
  | cons g rest ih =>
    simp only [addToGroups]
    split
    · simp [groupBytes]
      ring
    · simp only [groupBytes, List.map_cons, List.sum_cons] at ih ⊢
      omega

theorem groupBytes_foldl (l : List RecInfo) (init : List (ℤ × List RecInfo)) :
    groupBytes (l.foldl addToGroups init)
      = groupBytes init + (l.map (·.size)).sum := by
  induction l generalizing init with
  | nil => simp
  | cons r l ih =>
    simp only [List.foldl_cons, ih, groupBytes_addToGroups, List.map_cons,
      List.sum_cons]
    omega

theorem addToGroups_ne_nil (groups : List (ℤ × List RecInfo)) (r : RecInfo) :
    addToGroups groups r ≠ [] := by
  cases groups with
  | nil => simp [addToGroups]
  | cons g rest =>
    simp only [addToGroups]
    split <;> simp

theorem foldl_addToGroups_ne_nil (l : List RecInfo)
    (init : List (ℤ × List RecInfo)) (h : init ≠ []) :
    l.foldl addToGroups init ≠ [] := by
  induction l generalizing init with
  | nil => simpa
  | cons r l ih => exact ih _ (addToGroups_ne_nil init r)

theorem get_recordings_by_age_eq_nil_iff (now : ℤ) (fs : List RecFile) :
    get_recordings_by_age now fs = [] ↔ fs = [] := by
  cases fs with
  | nil => simp [get_recordings_by_age, get_recording_files]
  | cons f fs =>
    simp only [get_recordings_by_age, get_recording_files, List.map_cons,
      List.foldl_cons]
    constructor
    · intro h
      exact absurd h (foldl_addToGroups_ne_nil _ _ (addToGroups_ne_nil [] _))
    · intro h
      cases h

/-- C8 counterexample: a single recording of exactly 1 GiB aged one day with
`camera_count = 0` yields an empirical rate of 1 GB/day (the code divides by
`max(camera_count, 1) = 1`), not the fixed default of 12, refuting the claim
that a zero camera count falls back to the default rate. -/
theorem analysis_gb_per_camera_per_day_counterexample :
    analysis_gb_per_camera_per_day 86400 [⟨"a.mp4", 1073741824, 0⟩] 0 = 1 ∧
    (1 : ℚ) ≠ ESTIMATED_GB_PER_CAMERA_PER_DAY := by
  have hb : calculate_storage_by_age 86400 [⟨"a.mp4", 1073741824, 0⟩]
      = [⟨1, 1073741824, 1⟩] := by decide
  constructor
  · unfold analysis_gb_per_camera_per_day oldest_recording_days total_recording_bytes
    rw [hb]
    simp only [List.map_cons, List.map_nil, maxOrDefault, List.maximum_cons,
      List.maximum_nil, List.sum_cons, List.sum_nil]
    norm_num
  · norm_num [ESTIMATED_GB_PER_CAMERA_PER_DAY]

/-- C8 amended: when recordings exist and the oldest recording is at least a
day old, the per-camera daily rate is total recorded bytes over the oldest
age over `max(camera_count, 1)` — a zero camera count divides by 1, it does
not fall back to the default; the fixed default of 12 GB/camera/day is used
exactly when there is no history or the oldest age is not positive. Total
bytes and oldest age over the age buckets agree with the raw inventory. -/
theorem analysis_gb_per_camera_per_day_spec (now : ℤ) (fs : List RecFile)
    (c : ℕ) :
    (fs ≠ [] → 0 < maxOrDefault (fs.map fun f => ageDays now f.mtime) 0 →
      analysis_gb_per_camera_per_day now fs c
        = ((sizeSum fs : ℚ) / 1024 ^ 3
            / (max (maxOrDefault (fs.map fun f => ageDays now f.mtime) 0) 1 : ℤ))
          / (max c 1 : ℕ)) ∧
    (fs = [] ∨ maxOrDefault (fs.map fun f => ageDays now f.mtime) 0 ≤ 0 →
      analysis_gb_per_camera_per_day now fs c
        = ESTIMATED_GB_PER_CAMERA_PER_DAY) := by
  have hperm : List.Perm
      (List.insertionSort (fun a b : ℤ × List RecInfo => a.1 ≤ b.1)
        (get_recordings_by_age now fs))
      (get_recordings_by_age now fs) :=
    List.perm_insertionSort _ _
  have hages : (calculate_storage_by_age now fs).map (·.age_days)
      = (List.insertionSort (fun a b : ℤ × List RecInfo => a.1 ≤ b.1)
          (get_recordings_by_age now fs)).map (·.1) := by
    simp [calculate_storage_by_age, List.map_map, Function.comp]
  have hmemiff : ∀ a, a ∈ (calculate_storage_by_age now fs).map (·.age_days)
      ↔ a ∈ fs.map fun f => ageDays now f.mtime := by
    intro a
    rw [hages, (hperm.map (·.1)).mem_iff]
    unfold get_recordings_by_age
    rw [mem_keys_foldl]
    simp [get_recording_files, List.map_map]
  have hmax : oldest_recording_days now fs
      = maxOrDefault (fs.map fun f => ageDays now f.mtime) 0 := by
    unfold oldest_recording_days maxOrDefault
    rw [maximum_eq_of_mem_iff hmemiff]
  have hbytes : total_recording_bytes now fs = sizeSum fs := by
    have h1 : total_recording_bytes now fs
        = groupBytes (List.insertionSort (fun a b : ℤ × List RecInfo => a.1 ≤ b.1)
            (get_recordings_by_age now fs)) := by
      simp [total_recording_bytes, calculate_storage_by_age, groupBytes,
        List.map_map, Function.comp_def]
    have h2 := (hperm.map fun g : ℤ × List RecInfo => (g.2.map (·.size)).sum).sum_eq
    rw [h1]
    unfold groupBytes
    rw [h2]
    show groupBytes (get_recordings_by_age now fs) = sizeSum fs
    unfold get_recordings_by_age
    rw [groupBytes_foldl]
    simp [groupBytes, sizeSum, get_recording_files, List.map_map, Function.comp_def]
  have hnil : calculate_storage_by_age now fs = [] ↔ fs = [] := by
    unfold calculate_storage_by_age
    have hlen : List.insertionSort (fun a b : ℤ × List RecInfo => a.1 ≤ b.1)
          (get_recordings_by_age now fs) = []
        ↔ get_recordings_by_age now fs = [] := by
      rw [← List.length_eq_zero, List.length_insertionSort, List.length_eq_zero]
    rw [List.map_eq_nil_iff, hlen]
    exact get_recordings_by_age_eq_nil_iff now fs
  constructor
  · intro hne hpos
    unfold analysis_gb_per_camera_per_day
    rw [hmax, hbytes, if_pos ⟨fun h => hne (hnil.1 h), hpos⟩]
  · intro h
    have hcond : ¬ (calculate_storage_by_age now fs ≠ [] ∧
        0 < oldest_recording_days now fs) := by
      rintro ⟨h1, h2⟩
      rw [hmax] at h2
      rcases h with h | h
      · exact h1 (hnil.2 h)
      · exact absurd h2 (not_lt.2 h)
    unfold analysis_gb_per_camera_per_day
    rw [if_neg hcond]

def fsRateW : List RecFile := [⟨"b.mp4", 1073741824, 0⟩]

theorem analysis_gb_per_camera_per_day_spec_witness :
    analysis_gb_per_camera_per_day 86400 fsRateW 3
      = ((sizeSum fsRateW : ℚ) / 1024 ^ 3
          / (max (maxOrDefault (fsRateW.map fun f => ageDays 86400 f.mtime) 0) 1 : ℤ))
        / (max 3 1 : ℕ) :=
  (analysis_gb_per_camera_per_day_spec 86400 fsRateW 3).1
    (by simp [fsRateW]) (by decide)

/-- `StorageStatus` enumeration from `models`. -/
inductive StorageStatus where
  | active
  | inactive
  | error
  | full
  deriving Repr, DecidableEq

/-- A `StorageVolume` record together with the piece of the filesystem
mounted at its path: `files` are the recordings under `mount_path`,
`disk_total` the capacity and `disk_base_used` the bytes used by anything
other than recordings (so used = `disk_base_used` + recording bytes). -/
structure StorageVolume where
  name : String
  mount_path : Option String
  path_exists : Bool
  retention_days : Option ℤ
  is_active : Bool
  status : StorageStatus
  total_bytes : ℕ
  used_bytes : ℕ
  last_checked : Option ℤ
  files : List RecFile
  disk_total : ℕ
  disk_base_used : ℕ
  deriving Repr, DecidableEq

/-- `volume.mount_path and os.path.exists(volume.mount_path)`: a `None` or
empty mount path is falsy. -/
def mountOk (v : StorageVolume) : Bool :=
  match v.mount_path with
  | none => false
  | some p => (p != "") && v.path_exists

/-- `get_disk_usage`: `(total, used, free)`, all zero when the path does not
exist. -/
def get_disk_usage (v : StorageVolume) : ℕ × ℕ × ℕ :=
  if v.path_exists then
    (v.disk_total, v.disk_base_used + sizeSum v.files,
      v.disk_total - (v.disk_base_used + sizeSum v.files))
  else (0, 0, 0)

/-- The result dict of `update_retention_settings` on the found-volume,
analysis-succeeded path: either the no-space error carrying
`max_retention_days`, or success with the applied retention, whether the
auto-adjust warning is attached, and the recommendation. -/
inductive UpdateResult where
  | err (max_retention_days : ℤ)
  | ok (retention_days : ℤ) (warning : Bool) (recommended_retention_days : ℤ)
  deriving Repr, DecidableEq

/-- `update_retention_settings` for an existing volume whose analysis
succeeded with recommendation `recommended`: reject when infeasible and
`auto_adjust` is off; otherwise clamp, persist, and immediately run
age-based expiry against the new value. -/
def update_retention_settings (now : ℤ) (v : StorageVolume) (recommended : ℤ)
    (retention_days : ℤ) (auto_adjust : Bool) : UpdateResult × StorageVolume :=
  if recommended < retention_days ∧ ¬ auto_adjust then
    (.err recommended, v)
  else
    let final0 := if recommended < retention_days then recommended else retention_days
    let warning := decide (recommended < retention_days)
    let final := if final0 < MIN_RETENTION_DAYS then MIN_RETENTION_DAYS else final0
    let v1 := { v with retention_days := some final }
    let v2 :=
      if mountOk v1 then { v1 with files := (delete_old_recordings now final v1.files).1 }
      else v1
    (.ok final warning recommended, v2)

/-- C3: when the requested retention exceeds the recommendation computed by
the analysis (`calculate_max_retention_days`): with `auto_adjust = true` the
persisted value equals the recommendation (hence is ≤ it, the minimum clamp
never raises it above, since the recommendation is at least 1) and the
warning is attached; with `auto_adjust = false` the call returns the error
carrying the maximum feasible value and the volume — retention and all other
state — is unchanged, with no deletion triggered. -/
theorem update_retention_settings_spec (now : ℤ) (v : StorageVolume)
    (avail : ℚ) (cams : ℤ) (rate : ℚ) (retention_days : ℤ)
    (h : calculate_max_retention_days avail cams rate < retention_days) :
    (update_retention_settings now v (calculate_max_retention_days avail cams rate)
        retention_days true).1
      = .ok (calculate_max_retention_days avail cams rate) true
          (calculate_max_retention_days avail cams rate) ∧
    (update_retention_settings now v (calculate_max_retention_days avail cams rate)
        retention_days true).2.retention_days
      = some (calculate_max_retention_days avail cams rate) ∧
    update_retention_settings now v (calculate_max_retention_days avail cams rate)
        retention_days false
      = (.err (calculate_max_retention_days avail cams rate), v) := by
  have h1 : ¬ calculate_max_retention_days avail cams rate < MIN_RETENTION_DAYS :=
    not_lt.2 (calculate_max_retention_days_ge_one avail cams rate)
  refine ⟨?_, ?_, ?_⟩
  · simp [update_retention_settings, h, h1]
  · unfold update_retention_settings
    rw [if_neg (by simp)]
    simp only [if_pos h, decide_eq_true h, if_neg h1]
    split <;> rfl
  · simp [update_retention_settings, h]

def volW : StorageVolume :=
  { name := "primary", mount_path := some "/recordings", path_exists := true,
    retention_days := some 7, is_active := true, status := .active,
    total_bytes := 0, used_bytes := 0, last_checked := none,
    files := [], disk_total := 1000, disk_base_used := 10 }

theorem update_retention_settings_spec_witness :
    update_retention_settings 0 volW (calculate_max_retention_days 0 1 12) 400 false
      = (.err (calculate_max_retention_days 0 1 12), volW) :=
  (update_retention_settings_spec 0 volW 0 1 12 400
    (lt_of_le_of_lt (calculate_max_retention_days_le_365 0 1 12) (by norm_num))).2.2

/-- `free_percent = (free / total) * 100`. -/
def free_percent (total free : ℕ) : ℚ := (free : ℚ) / (total : ℚ) * 100

/-- The emergency floor of `_run_cleanup`:
`min_free = max(total * MIN_FREE_PERCENT / 100, MIN_FREE_BYTES)`. -/
def min_free_target (total : ℕ) : ℚ :=
  max ((total : ℚ) * MIN_FREE_PERCENT / 100) (MIN_FREE_BYTES : ℚ)

/-- One volume of a `_run_cleanup` cycle: skip on a missing/unreadable mount
path; otherwise age-based expiry, then emergency eviction when free space is
below the safety margin, then status/metrics update. Returns the updated
volume and its `(files_deleted, bytes_freed)` contribution. -/
def processVolume (now : ℤ) (v : StorageVolume) : StorageVolume × ℕ × ℕ :=
  if mountOk v then
    let retention := v.retention_days.getD 7
    let e := delete_old_recordings now retention v.files
    let v1 := { v with files := e.1 }
    let u := get_disk_usage v1
    if 0 < u.1 then
      let emer :=
        if free_percent u.1 u.2.2 < MIN_FREE_PERCENT then
          let r := delete_oldest_recordings_until_space
            (min_free_target u.1) (u.2.2 : ℚ) v1.files
          ({ v1 with files := r.1 }, r.2.1, r.2.2)
        else (v1, 0, 0)
      let u2 := get_disk_usage emer.1
      let nfp : ℚ := if 0 < u2.1 then free_percent u2.1 u2.2.2 else 0
      let v3 := { emer.1 with
        status := if nfp < MIN_FREE_PERCENT then StorageStatus.full else StorageStatus.active,
        total_bytes := u2.1, used_bytes := u2.2.1, last_checked := some now }
      (v3, e.2.1 + emer.2.1, e.2.2 + emer.2.2)
    else
      (v1, e.2.1, e.2.2)
  else (v, 0, 0)

/-- One full `_run_cleanup` cycle over the active volumes, accumulating
deletion totals. -/
def run_cleanup (now : ℤ) : List StorageVolume → List StorageVolume × ℕ × ℕ
  | [] => ([], 0, 0)
  | v :: rest =>
    let p := if v.is_active then processVolume now v else (v, 0, 0)
    let r := run_cleanup now rest
    (p.1 :: r.1, p.2.1 + r.2.1, p.2.2 + r.2.2)

theorem run_cleanup_append (now : ℤ) (l1 l2 : List StorageVolume) :
    run_cleanup now (l1 ++ l2)
      = ((run_cleanup now l1).1 ++ (run_cleanup now l2).1,
          (run_cleanup now l1).2.1 + (run_cleanup now l2).2.1,
          (run_cleanup now l1).2.2 + (run_cleanup now l2).2.2) := by
  induction l1 with
  | nil => simp [run_cleanup]
  | cons v l1 ih =>
    simp [run_cleanup, ih, Nat.add_assoc]

theorem processVolume_of_not_mountOk (now : ℤ) (v : StorageVolume)
    (hv : mountOk v = false) : processVolume now v = (v, 0, 0) := by
  simp [processVolume, hv]

def volBad : StorageVolume :=
  { name := "bad", mount_path := some "/mnt/bad", path_exists := false,
    retention_days := some 7, is_active := true, status := .active,
    total_bytes := 0, used_bytes := 0, last_checked := none,
    files := [⟨"x.mp4", 10, 0⟩], disk_total := 100, disk_base_used := 0 }

/-- C7 counterexample: a cleanup cycle over an active volume whose mount path
does not exist leaves the volume entirely unchanged — in particular its
status stays `active` and is never set to `error`, refuting the claim that
the scheduler marks such volumes `error`. -/
theorem run_cleanup_missing_path_counterexample :
    (run_cleanup 864000 [volBad]).1 = [volBad] ∧
    volBad.status ≠ StorageStatus.error := by
  constructor
  · rfl
  · decide

/-- C7 amended: on a cleanup cycle, an active volume whose mount path is
missing or unreadable is skipped: no deletion runs against it and the volume
record — its status included — is left unchanged (the code does not set
`status = error`), while the cycle still processes all volumes before and
after it exactly as it would alone. -/
theorem run_cleanup_skips_missing_path (now : ℤ) (pre post : List StorageVolume)
    (v : StorageVolume) (hv : mountOk v = false) :
    processVolume now v = (v, 0, 0) ∧
    (run_cleanup now (pre ++ v :: post)).1
      = (run_cleanup now pre).1 ++ v :: (run_cleanup now post).1 ∧
    (run_cleanup now (pre ++ v :: post)).2.1
      = (run_cleanup now pre).2.1 + (run_cleanup now post).2.1 ∧
    (run_cleanup now (pre ++ v :: post)).2.2
      = (run_cleanup now pre).2.2 + (run_cleanup now post).2.2 := by
  have hstep : run_cleanup now (v :: post)
      = (v :: (run_cleanup now post).1,
          (run_cleanup now post).2.1, (run_cleanup now post).2.2) := by
    simp only [run_cleanup]
    rw [show (if v.is_active then processVolume now v else (v, 0, 0)) = (v, 0, 0) by
      cases v.is_active <;> simp [processVolume_of_not_mountOk now v hv]]
    simp
  refine ⟨processVolume_of_not_mountOk now v hv, ?_, ?_, ?_⟩ <;>
    rw [run_cleanup_append now pre (v :: post), hstep]

theorem run_cleanup_skips_missing_path_witness :
    (run_cleanup 864000 ([] ++ volBad :: [])).2.1
      = (run_cleanup 864000 []).2.1 + (run_cleanup 864000 []).2.1 :=
  (run_cleanup_skips_missing_path 864000 [] [] volBad rfl).2.2.1

theorem path_exists_of_mountOk {v : StorageVolume} (h : mountOk v = true) :
    v.path_exists = true := by
  unfold mountOk at h
  split at h
  · cases h
  · simp only [Bool.and_eq_true] at h
    exact h.2

/-- The filesystem of a volume after step 1 of the cleanup cycle (age-based
expiry at the volume's stored retention, default 7). -/
def filesAfterExpiry (now : ℤ) (v : StorageVolume) : List RecFile :=
  (delete_old_recordings now (v.retention_days.getD 7) v.files).1

/-- Free bytes observed by the cycle right after age-based expiry. -/
def freeAfterExpiry (now : ℤ) (v : StorageVolume) : ℕ :=
  v.disk_total - (v.disk_base_used + sizeSum (filesAfterExpiry now v))

/-- C10: on a cleanup cycle, for an active volume with a readable mount path
and readable (positive-total) disk usage: emergency eviction runs exactly
when the observed free percentage is below `MIN_FREE_PERCENT = 5` (which is
exactly `20 * free < total`); the floor it targets is
`max(total * 5 / 100, 1 GiB)`, which is at least both the 5% margin and
1 GiB, and for volumes with total capacity under 20 GiB it strictly exceeds
the 5% safety margin. -/
theorem scheduler_emergency_spec (now : ℤ) (v : StorageVolume)
    (hact : v.is_active = true) (hm : mountOk v = true) (ht : 0 < v.disk_total) :
    (free_percent v.disk_total (freeAfterExpiry now v) < MIN_FREE_PERCENT
      ↔ 20 * freeAfterExpiry now v < v.disk_total) ∧
    (v.disk_total : ℚ) * MIN_FREE_PERCENT / 100 ≤ min_free_target v.disk_total ∧
    (MIN_FREE_BYTES : ℚ) ≤ min_free_target v.disk_total ∧
    (v.disk_total < 20 * MIN_FREE_BYTES →
      (v.disk_total : ℚ) * MIN_FREE_PERCENT / 100 < min_free_target v.disk_total) ∧
    (processVolume now v).1.files
      = (if 20 * freeAfterExpiry now v < v.disk_total then
          (delete_oldest_recordings_until_space (min_free_target v.disk_total)
            ((freeAfterExpiry now v : ℕ) : ℚ) (filesAfterExpiry now v)).1
        else filesAfterExpiry now v) := by
  have htq : (0 : ℚ) < (v.disk_total : ℚ) := by exact_mod_cast ht
  have hiff : free_percent v.disk_total (freeAfterExpiry now v) < MIN_FREE_PERCENT
      ↔ 20 * freeAfterExpiry now v < v.disk_total := by
    unfold free_percent MIN_FREE_PERCENT
    rw [div_mul_eq_mul_div, div_lt_iff htq]
    rw [show ((freeAfterExpiry now v : ℚ) * 100)
        = ((100 * freeAfterExpiry now v : ℕ) : ℚ) by push_cast; ring]
    rw [show ((5 : ℚ) * (v.disk_total : ℚ)) = ((5 * v.disk_total : ℕ) : ℚ) by
      push_cast; ring]
    rw [Nat.cast_lt]
    omega
  refine ⟨hiff, le_max_left _ _, le_max_right _ _, ?_, ?_⟩
  · intro hsmall
    have h1 : (v.disk_total : ℚ) * MIN_FREE_PERCENT / 100 < (MIN_FREE_BYTES : ℚ) := by
      unfold MIN_FREE_PERCENT MIN_FREE_BYTES at *
      rw [div_lt_iff (by norm_num)]
      have hc : (v.disk_total : ℚ) < ((20 * (1 * 1024 * 1024 * 1024) : ℕ) : ℚ) :=
        by exact_mod_cast hsmall
      push_cast at hc ⊢
      linarith
    exact lt_of_lt_of_le h1 (le_max_right _ _)
  · have hpe := path_exists_of_mountOk hm
    unfold processVolume
    rw [if_pos hm]
    simp only [get_disk_usage, hpe, if_true, if_pos ht]
    simp only [freeAfterExpiry, filesAfterExpiry] at hiff ⊢
    by_cases h20 : 20 * (v.disk_total - (v.disk_base_used +
        sizeSum (delete_old_recordings now (v.retention_days.getD 7) v.files).1))
        < v.disk_total
    · rw [if_pos (hiff.2 h20), if_pos h20]
    · rw [if_neg (fun hq => h20 (hiff.1 hq)), if_neg h20]

def volEm : StorageVolume :=
  { name := "small", mount_path := some "/mnt/small", path_exists := true,
    retention_days := some 7, is_active := true, status := .active,
    total_bytes := 0, used_bytes := 0, last_checked := none,
    files := [], disk_total := 1000, disk_base_used := 990 }

theorem scheduler_emergency_spec_witness :
    (volEm.disk_total : ℚ) * MIN_FREE_PERCENT / 100 < min_free_target volEm.disk_total :=
  ((scheduler_emergency_spec 0 volEm rfl (by decide) (by decide)).2.2.2.1) (by decide)

end Vigila
